import Mathlib

/-!
Verification of the leetai study-planning backend (`backend/analytics.py`,
`backend/claude.py`, `backend/main.py`) against its natural-language
specification.

Shallow embedding conventions:
* Calendar dates are integers counting days since an arbitrary epoch.
* Datetimes are integers counting microseconds since the same epoch
  (Python `datetime` has microsecond resolution); `midnight d` is
  `datetime.combine(d, datetime.min.time())`.
* The sync endpoint measures elapsed time via `timedelta.total_seconds()`;
  in that model timestamps are integers counting seconds.
* Python `float` arithmetic on the weighted scores is modelled with `ℚ`;
  all weights are decimal literals, and every reachable score is a
  multiple of 1/10, so no floating-point rounding artefact can change any
  comparison or rounded value that the claims mention.
-/

namespace LeetAI

/-! ## Time model and the window classifier (`backend/analytics.py`) -/

/-- Microseconds per day: the resolution of Python `datetime`/`timedelta`. -/
def usecPerDay : ℤ := 86400000000

/-- `datetime.combine(solved_date, datetime.min.time())`: the midnight
instant of a calendar day. -/
def midnight (d : ℤ) : ℤ := d * usecPerDay

/-- The four cutoff instants built by `_get_time_windows(now)`:
`now - timedelta(days=N)` for N = 3, 7, 14, 28. -/
structure Windows where
  w3 : ℤ
  w7 : ℤ
  w14 : ℤ
  w28 : ℤ
deriving DecidableEq, Repr

/-- `_get_time_windows` from `backend/analytics.py`. -/
def get_time_windows (now : ℤ) : Windows :=
  { w3 := now - 3 * usecPerDay
    w7 := now - 7 * usecPerDay
    w14 := now - 14 * usecPerDay
    w28 := now - 28 * usecPerDay }

/-- The five strings `_which_window` can return: `"3d"`, `"7d"`, `"14d"`,
`"28d"`, `"28d+"`. -/
inductive WindowKey where
  | w3 | w7 | w14 | w28 | w28plus
deriving DecidableEq, Repr

/-- `_which_window` from `backend/analytics.py`: compare the
midnight-anchored solved date against the cutoffs, most recent first. -/
def which_window (solved_date : ℤ) (w : Windows) : WindowKey :=
  let solved_dt := midnight solved_date
  if solved_dt ≥ w.w3 then .w3
  else if solved_dt ≥ w.w7 then .w7
  else if solved_dt ≥ w.w14 then .w14
  else if solved_dt ≥ w.w28 then .w28
  else .w28plus

end LeetAI

namespace LeetAI

/-! ## C3: boundary behaviour of the window classifier -/

/-- C3 counterexample helper: a reference time at noon of day 1000. -/
def noonDay1000 : ℤ := 1000 * usecPerDay + 43200000000

/-- **C3 (counterexample).** The claim says that for every reference time
`now`, a solved-date exactly N days before `now` lands in the N-day
bucket.  With `now` at noon of day 1000, the date 997 (exactly 3 calendar
days earlier) is midnight-anchored *before* `now - 3 days`, so the
classifier puts it in the `"7d"` bucket, not `"3d"`. -/
theorem C3_counterexample :
    which_window 997 (get_time_windows noonDay1000) = WindowKey.w7 ∧
    WindowKey.w7 ≠ WindowKey.w3 := by
  constructor
  · decide
  · decide

/-- **C3 (amended).** Boundaries are inclusive ("half-open on the recent
side") only relative to the midnight-anchored comparison the code
performs.  When the reference time is exactly midnight of day `today`,
the date exactly N days earlier belongs to the N-day bucket for
N ∈ {3, 7, 14, 28} (the 28-day boundary landing in the internal `"28d"`
bucket).  When the reference time has a positive time-of-day component,
the date N calendar days earlier falls one bucket older instead. -/
theorem C3_window_boundaries (today t : ℤ) (ht0 : 0 ≤ t) (ht1 : t < usecPerDay) :
    (t = 0 →
      which_window (today - 3) (get_time_windows (midnight today + t)) = WindowKey.w3 ∧
      which_window (today - 7) (get_time_windows (midnight today + t)) = WindowKey.w7 ∧
      which_window (today - 14) (get_time_windows (midnight today + t)) = WindowKey.w14 ∧
      which_window (today - 28) (get_time_windows (midnight today + t)) = WindowKey.w28) ∧
    (0 < t →
      which_window (today - 3) (get_time_windows (midnight today + t)) = WindowKey.w7 ∧
      which_window (today - 7) (get_time_windows (midnight today + t)) = WindowKey.w14 ∧
      which_window (today - 14) (get_time_windows (midnight today + t)) = WindowKey.w28 ∧
      which_window (today - 28) (get_time_windows (midnight today + t)) = WindowKey.w28plus) := by
  have ht1' : t < 86400000000 := ht1
  unfold which_window get_time_windows midnight usecPerDay
  constructor
  · intro h0
    subst h0
    refine ⟨?_, ?_, ?_, ?_⟩ <;> simp only [] <;> split_ifs <;> first | rfl | omega
  · intro hpos
    refine ⟨?_, ?_, ?_, ?_⟩ <;> simp only [] <;> split_ifs <;> first | rfl | omega

/-- **C3 (witness).** The amended boundary theorem instantiated at
`today = 1000`, `t = 0` and at `t` = half a day. -/
theorem C3_window_boundaries_witness :
    (0 : ℤ) ≤ 0 ∧ (0 : ℤ) < usecPerDay ∧
    which_window 997 (get_time_windows (midnight 1000 + 0)) = WindowKey.w3 :=
  ⟨le_refl 0, by decide, ((C3_window_boundaries 1000 0 (by decide) (by decide)).1 rfl).1⟩

end LeetAI

namespace LeetAI

/-! ## Topic statistics aggregator (`calculate_topic_stats`) -/

/-- Normalized difficulty values. -/
inductive Diff where
  | easy | medium | hard
deriving DecidableEq, Repr

/-- Python `str.lower()` (character-wise lowercasing). -/
def py_lower (s : String) : String := ⟨s.data.map Char.toLower⟩

/-- `(problem.difficulty or "medium").lower()` followed by the membership
check against `("easy", "medium", "hard")`, defaulting to `"medium"`.
`None` and the empty string are falsy in Python, hence map to `"medium"`. -/
def normalize_difficulty (d : Option String) : Diff :=
  let s0 := d.getD ""
  let s := py_lower (if s0 = "" then "medium" else s0)
  if s = "easy" then .easy
  else if s = "medium" then .medium
  else if s = "hard" then .hard
  else .medium

/-- A row of the `problems` table, as the aggregator reads it. -/
structure Problem where
  leetcode_number : ℤ
  title : String
  difficulty : Option String
  topics : List String
  leetcode_url : String
deriving DecidableEq, Repr

/-- A row of the `submissions` table, as the aggregator reads it
(`solved_date` is a calendar day number). -/
structure Submission where
  solved_date : ℤ
  attempts : ℕ
deriving DecidableEq, Repr

/-- Per-topic accumulator: the `topic_acc[topic]` counter dict (keys are
the strings `f"{difficulty}_{suffix}"` with suffix one of `3d`, `7d`,
`14d`, `28d`, `28d_plus`, rendered here as a `Diff × WindowKey` pair) and
the `last_solved_by_topic[topic]` entry, which is written in the same
loop iteration that first creates the counter entry. -/
structure Acc where
  counts : Diff → WindowKey → ℕ
  last : ℤ

/-- Increment `topic_acc[t][(d, w)]` and update the last-solved date,
preserving the dict's insertion order. -/
def bump (t : String) (d : Diff) (w : WindowKey) (sd : ℤ) :
    List (String × Acc) → List (String × Acc)
  | [] => [(t, ⟨fun d' w' => if d' = d ∧ w' = w then 1 else 0, sd⟩)]
  | (t', a) :: rest =>
    if t' = t then
      (t', ⟨fun d' w' => a.counts d' w' + (if d' = d ∧ w' = w then 1 else 0),
            if sd > a.last then sd else a.last⟩) :: rest
    else (t', a) :: bump t d w sd rest

/-- Python `str.strip()`: drop leading and trailing whitespace. -/
def py_strip (s : String) : String :=
  ⟨((s.data.dropWhile Char.isWhitespace).reverse.dropWhile Char.isWhitespace).reverse⟩

/-- The body of the `for submission, problem in submissions:` loop in
`calculate_topic_stats`: classify the window, normalize the difficulty,
then bump every stripped non-empty topic tag. -/
def process_pair (w : Windows) (acc : List (String × Acc))
    (sp : Submission × Problem) : List (String × Acc) :=
  let window_key := which_window sp.1.solved_date w
  let difficulty := normalize_difficulty sp.2.difficulty
  sp.2.topics.foldl
    (fun acc topic =>
      let topic_name := py_strip topic
      if topic_name = "" then acc
      else bump topic_name difficulty window_key sp.1.solved_date acc)
    acc

/-- Python's `round` on a value already scaled to an integer grid:
round half to even (banker's rounding). -/
def round_half_even (q : ℚ) : ℤ :=
  if q - ⌊q⌋ < 1/2 then ⌊q⌋
  else if q - ⌊q⌋ > 1/2 then ⌊q⌋ + 1
  else if 2 ∣ ⌊q⌋ then ⌊q⌋ else ⌊q⌋ + 1

/-- `round(x, 2)`: round to two decimal places, ties to even. -/
def round2 (q : ℚ) : ℚ := (round_half_even (q * 100) : ℚ) / 100

/-- The `weighted` accumulation loop over
`recency_multiplier = {"3d": 1.0, "7d": 0.8, "14d": 0.5, "28d+": 0.3}`
and `difficulty_weight = {"easy": 1, "medium": 2, "hard": 3}`, in the
dicts' iteration order.  Only the twelve exposed counts are read
(`stats.get(f"{diff}_{suffix}", 0)` with suffix `3d|7d|14d|28d_plus`). -/
def weighted_score_calc (e3 m3 h3 e7 m7 h7 e14 m14 h14 e28p m28p h28p : ℕ) : ℚ :=
  0 + e3 * 1 * 1 + m3 * 2 * 1 + h3 * 3 * 1
    + e7 * 1 * (8/10) + m7 * 2 * (8/10) + h7 * 3 * (8/10)
    + e14 * 1 * (5/10) + m14 * 2 * (5/10) + h14 * 3 * (5/10)
    + e28p * 1 * (3/10) + m28p * 2 * (3/10) + h28p * 3 * (3/10)

/-- The per-topic response dict matching `schemas.TopicStats`. -/
structure TopicStats where
  topic : String
  easy_3d : ℕ
  medium_3d : ℕ
  hard_3d : ℕ
  easy_7d : ℕ
  medium_7d : ℕ
  hard_7d : ℕ
  easy_14d : ℕ
  medium_14d : ℕ
  hard_14d : ℕ
  easy_28d_plus : ℕ
  medium_28d_plus : ℕ
  hard_28d_plus : ℕ
  last_solved_date : Option ℤ
  weighted_score : ℚ
deriving DecidableEq, Repr

/-- Build one topic's stats dict from its accumulator, reading exactly the
twelve exposed `{difficulty}_{suffix}` keys and computing the rounded
weighted score from those twelve counts. -/
def mk_stats (t : String) (a : Acc) : TopicStats :=
  { topic := t
    easy_3d := a.counts .easy .w3
    medium_3d := a.counts .medium .w3
    hard_3d := a.counts .hard .w3
    easy_7d := a.counts .easy .w7
    medium_7d := a.counts .medium .w7
    hard_7d := a.counts .hard .w7
    easy_14d := a.counts .easy .w14
    medium_14d := a.counts .medium .w14
    hard_14d := a.counts .hard .w14
    easy_28d_plus := a.counts .easy .w28plus
    medium_28d_plus := a.counts .medium .w28plus
    hard_28d_plus := a.counts .hard .w28plus
    last_solved_date := some a.last
    weighted_score := round2 (weighted_score_calc
      (a.counts .easy .w3) (a.counts .medium .w3) (a.counts .hard .w3)
      (a.counts .easy .w7) (a.counts .medium .w7) (a.counts .hard .w7)
      (a.counts .easy .w14) (a.counts .medium .w14) (a.counts .hard .w14)
      (a.counts .easy .w28plus) (a.counts .medium .w28plus) (a.counts .hard .w28plus)) }

/-- One step of a stable descending insertion sort on weighted score:
`x` goes after every already-placed element whose score is `≥` its own,
which reproduces Python's stable `list.sort(key=..., reverse=True)`. -/
def insertScoreDesc (x : TopicStats) : List TopicStats → List TopicStats
  | [] => [x]
  | y :: ys =>
    if x.weighted_score ≤ y.weighted_score then y :: insertScoreDesc x ys
    else x :: y :: ys

/-- `topic_stats.sort(key=lambda t: t.get("weighted_score", 0.0), reverse=True)`. -/
def sort_score_desc (l : List TopicStats) : List TopicStats :=
  l.foldl (fun acc x => insertScoreDesc x acc) []

/-- `calculate_topic_stats` from `backend/analytics.py`, with the
database join supplied as the list of `(Submission, Problem)` pairs and
`datetime.now()` supplied as `now`. -/
def calculate_topic_stats (pairs : List (Submission × Problem)) (now : ℤ) :
    List TopicStats :=
  let windows := get_time_windows now
  let acc := pairs.foldl (process_pair windows) []
  sort_score_desc (acc.map fun ta => mk_stats ta.1 ta.2)

/-- The sum of the twelve exposed `(difficulty × window)` counters of a
topic's stats record. -/
def sum_twelve (r : TopicStats) : ℕ :=
  r.easy_3d + r.medium_3d + r.hard_3d +
  r.easy_7d + r.medium_7d + r.hard_7d +
  r.easy_14d + r.medium_14d + r.hard_14d +
  r.easy_28d_plus + r.medium_28d_plus + r.hard_28d_plus

end LeetAI

namespace LeetAI

/-! ## Sorting and membership helper lemmas -/

theorem mem_insertScoreDesc {x y : TopicStats} {l : List TopicStats} :
    x ∈ insertScoreDesc y l ↔ x = y ∨ x ∈ l := by
  induction l with
  | nil => simp [insertScoreDesc]
  | cons z zs ih =>
    simp only [insertScoreDesc]
    split_ifs <;> first
      | (simp only [List.mem_cons, ih]; tauto)
      | (simp only [List.mem_cons, ih])

theorem mem_foldl_insertScoreDesc (l : List TopicStats) :
    ∀ (acc : List TopicStats) (x : TopicStats),
      x ∈ l.foldl (fun acc x => insertScoreDesc x acc) acc ↔ x ∈ acc ∨ x ∈ l := by
  induction l with
  | nil => simp
  | cons z zs ih =>
    intro acc x
    simp only [List.foldl_cons, ih, mem_insertScoreDesc, List.mem_cons]
    tauto

theorem mem_sort_score_desc {x : TopicStats} {l : List TopicStats} :
    x ∈ sort_score_desc l ↔ x ∈ l := by
  unfold sort_score_desc
  rw [mem_foldl_insertScoreDesc]
  simp

/-- Every record produced by `calculate_topic_stats` is `mk_stats` of some
accumulator entry. -/
theorem calc_topic_stats_mem_shape {r : TopicStats}
    {pairs : List (Submission × Problem)} {now : ℤ}
    (h : r ∈ calculate_topic_stats pairs now) : ∃ t a, r = mk_stats t a := by
  simp only [calculate_topic_stats] at h
  rw [mem_sort_score_desc] at h
  simp only [List.mem_map] at h
  obtain ⟨ta, -, h⟩ := h
  exact ⟨ta.1, ta.2, h.symm⟩

/-! ## Rounding lemmas -/

theorem round_half_even_mono {q r : ℚ} (h : q ≤ r) :
    round_half_even q ≤ round_half_even r := by
  unfold round_half_even
  have hf : (⌊q⌋ : ℤ) ≤ ⌊r⌋ := Int.floor_le_floor h
  rcases lt_or_eq_of_le hf with hlt | heq
  · split_ifs <;> omega
  · rw [← heq]
    have hq : (⌊q⌋ : ℚ) ≤ q := Int.floor_le q
    have hfr : q - (⌊q⌋ : ℚ) ≤ r - (⌊q⌋ : ℚ) := by linarith
    split_ifs <;> first | omega | linarith

theorem round_half_even_nonneg {q : ℚ} (h : 0 ≤ q) : 0 ≤ round_half_even q := by
  unfold round_half_even
  have h0 : (0 : ℤ) ≤ ⌊q⌋ := Int.floor_nonneg.mpr h
  split_ifs <;> omega

theorem round2_mono {q r : ℚ} (h : q ≤ r) : round2 q ≤ round2 r := by
  unfold round2
  have := round_half_even_mono (q := q * 100) (r := r * 100) (by linarith)
  have hc : ((round_half_even (q * 100) : ℤ) : ℚ) ≤ ((round_half_even (r * 100) : ℤ) : ℚ) := by
    exact_mod_cast this
  linarith

theorem round2_nonneg {q : ℚ} (h : 0 ≤ q) : 0 ≤ round2 q := by
  unfold round2
  have := round_half_even_nonneg (q := q * 100) (by linarith)
  have hc : (0 : ℚ) ≤ ((round_half_even (q * 100) : ℤ) : ℚ) := by exact_mod_cast this
  linarith

theorem weighted_score_calc_nonneg
    (e3 m3 h3 e7 m7 h7 e14 m14 h14 e28p m28p h28p : ℕ) :
    0 ≤ weighted_score_calc e3 m3 h3 e7 m7 h7 e14 m14 h14 e28p m28p h28p := by
  unfold weighted_score_calc
  positivity

/-! ## C7: weighted score nonnegative and monotone in the counts -/

/-- **C7.** Every topic statistics record produced by
`calculate_topic_stats` has `weighted_score ≥ 0`, and the score
computation is monotone in the twelve exposed counts: increasing any
count (here: pointwise, which subsumes increasing a single one while
holding the others fixed) can only increase the rounded score or leave
it equal. -/
theorem C7_weighted_score_nonneg_mono :
    (∀ (pairs : List (Submission × Problem)) (now : ℤ) (r : TopicStats),
      r ∈ calculate_topic_stats pairs now → 0 ≤ r.weighted_score) ∧
    (∀ e3 m3 h3 e7 m7 h7 e14 m14 h14 e28p m28p h28p
        f3 n3 g3 f7 n7 g7 f14 n14 g14 f28p n28p g28p : ℕ,
      e3 ≤ f3 → m3 ≤ n3 → h3 ≤ g3 →
      e7 ≤ f7 → m7 ≤ n7 → h7 ≤ g7 →
      e14 ≤ f14 → m14 ≤ n14 → h14 ≤ g14 →
      e28p ≤ f28p → m28p ≤ n28p → h28p ≤ g28p →
      round2 (weighted_score_calc e3 m3 h3 e7 m7 h7 e14 m14 h14 e28p m28p h28p) ≤
        round2 (weighted_score_calc f3 n3 g3 f7 n7 g7 f14 n14 g14 f28p n28p g28p)) := by
  constructor
  · intro pairs now r hr
    obtain ⟨t, a, rfl⟩ := calc_topic_stats_mem_shape hr
    exact round2_nonneg (weighted_score_calc_nonneg _ _ _ _ _ _ _ _ _ _ _ _)
  · intro e3 m3 h3 e7 m7 h7 e14 m14 h14 e28p m28p h28p
      f3 n3 g3 f7 n7 g7 f14 n14 g14 f28p n28p g28p
      h1 h2 h3' h4 h5 h6 h7' h8 h9 h10 h11 h12
    apply round2_mono
    unfold weighted_score_calc
    gcongr

/-- Evaluating the aggregator on a single submission whose problem has a
single topic tag: the output is one record whose counters are the
indicator of the pair's (difficulty, window). -/
theorem calc_single_eval (now : ℤ) (s : Submission) (p : Problem) (tag : String)
    (htop : p.topics = [tag]) (hne : ¬ py_strip tag = "") :
    calculate_topic_stats [(s, p)] now =
      [mk_stats (py_strip tag)
        ⟨fun d w =>
            if d = normalize_difficulty p.difficulty ∧
               w = which_window s.solved_date (get_time_windows now) then 1 else 0,
          s.solved_date⟩] := by
  simp only [calculate_topic_stats, List.foldl, process_pair, htop]
  rw [if_neg hne]
  simp only [bump, List.map, sort_score_desc, List.foldl, insertScoreDesc]

/-- **C7 (witness).** The monotonicity applied at concrete counts, and
the nonnegativity applied to the record computed for a concrete
one-submission input. -/
theorem C7_weighted_score_nonneg_mono_witness :
    (0 : ℚ) ≤ (mk_stats "Array"
        ⟨fun d w => if d = Diff.easy ∧ w = WindowKey.w3 then 1 else 0, 1000⟩).weighted_score ∧
    round2 (weighted_score_calc 0 0 0 0 0 0 0 0 0 0 0 0) ≤
      round2 (weighted_score_calc 1 0 0 0 0 0 0 0 0 0 0 0) := by
  constructor
  · refine C7_weighted_score_nonneg_mono.1
      [(⟨1000, 1⟩, ⟨1, "X", some "easy", ["Array"], ""⟩)] (midnight 1000)
      (mk_stats "Array"
        ⟨fun d w => if d = Diff.easy ∧ w = WindowKey.w3 then 1 else 0, 1000⟩) ?_
    rw [calc_single_eval (midnight 1000) ⟨1000, 1⟩ ⟨1, "X", some "easy", ["Array"], ""⟩
      "Array" rfl (by decide)]
    exact List.mem_singleton.mpr rfl
  · exact C7_weighted_score_nonneg_mono.2 0 0 0 0 0 0 0 0 0 0 0 0 1 0 0 0 0 0 0 0 0 0 0 0
      (by decide) (by decide) (by decide) (by decide) (by decide) (by decide)
      (by decide) (by decide) (by decide) (by decide) (by decide) (by decide)

/-! ## C1: window totality and contribution to the twelve exposed counters -/

/-- The twelve exposed counters of a single-pair indicator record sum to
1 unless the pair's window is the internal `"28d"` bucket, in which case
they sum to 0 (the increment went to the unread `{diff}_28d` key). -/
theorem sum_twelve_indicator (t : String) (sd : ℤ) (d : Diff) (wk : WindowKey) :
    sum_twelve (mk_stats t ⟨fun d' w' => if d' = d ∧ w' = wk then 1 else 0, sd⟩) =
      if wk = WindowKey.w28 then 0 else 1 := by
  cases d <;> cases wk <;> rfl

/-- **C1 (counterexample).** A submission solved 20 days before the
reference time is classified into the fifth window `"28d"`, which is none
of the four claimed windows, and its (submission, problem) pair
contributes to none of the twelve exposed counters of its topic's record
(the record exists but all twelve counts are zero). -/
theorem C1_counterexample :
    which_window 980 (get_time_windows (midnight 1000)) = WindowKey.w28 ∧
    (WindowKey.w28 ≠ WindowKey.w3 ∧ WindowKey.w28 ≠ WindowKey.w7 ∧
      WindowKey.w28 ≠ WindowKey.w14 ∧ WindowKey.w28 ≠ WindowKey.w28plus) ∧
    (calculate_topic_stats
        [(⟨980, 1⟩, ⟨4, "Median of Two Sorted Arrays", some "hard", ["Array"], ""⟩)]
        (midnight 1000)).map sum_twelve = [0] := by
  have hw : which_window 980 (get_time_windows (midnight 1000)) = WindowKey.w28 := by decide
  refine ⟨hw, ⟨by decide, by decide, by decide, by decide⟩, ?_⟩
  rw [calc_single_eval (midnight 1000) ⟨980, 1⟩
    ⟨4, "Median of Two Sorted Arrays", some "hard", ["Array"], ""⟩ "Array" rfl (by decide), hw]
  simp only [List.map_cons, List.map_nil]
  rw [sum_twelve_indicator]
  norm_num

/-- **C1 (amended).** The classifier assigns every solved-date to exactly
one of *five* windows {3d, 7d, 14d, 28d, 28d+} (no date is
unclassified), and a (submission, problem) pair with a single non-empty
stripped topic tag contributes to exactly one of the twelve exposed
(difficulty × window) counters of its topic's record precisely when its
window is not the internal `"28d"` bucket; a pair classified `"28d"`
contributes to none of them. -/
theorem C1_window_totality_and_contribution :
    (∀ now sd : ℤ,
      which_window sd (get_time_windows now) = WindowKey.w3 ∨
      which_window sd (get_time_windows now) = WindowKey.w7 ∨
      which_window sd (get_time_windows now) = WindowKey.w14 ∨
      which_window sd (get_time_windows now) = WindowKey.w28 ∨
      which_window sd (get_time_windows now) = WindowKey.w28plus) ∧
    (∀ (now : ℤ) (s : Submission) (p : Problem) (tag : String),
      p.topics = [tag] → ¬ py_strip tag = "" →
      ∃ r, calculate_topic_stats [(s, p)] now = [r] ∧ r.topic = py_strip tag ∧
        sum_twelve r =
          (if which_window s.solved_date (get_time_windows now) = WindowKey.w28
           then 0 else 1)) := by
  constructor
  · intro now sd
    cases hw : which_window sd (get_time_windows now) <;> simp
  · intro now s p tag htop hne
    refine ⟨_, calc_single_eval now s p tag htop hne, rfl, ?_⟩
    exact sum_twelve_indicator (py_strip tag) s.solved_date
      (normalize_difficulty p.difficulty)
      (which_window s.solved_date (get_time_windows now))

/-- **C1 (witness).** The amended theorem applied to a concrete
submission solved on the reference day: the topic record's twelve
exposed counters sum to exactly 1. -/
theorem C1_window_totality_and_contribution_witness :
    (calculate_topic_stats [(⟨1000, 1⟩, ⟨1, "Two Sum", some "easy", ["Array"], ""⟩)]
      (midnight 1000)).map sum_twelve = [1] := by
  obtain ⟨r, hcalc, -, hsum⟩ :=
    C1_window_totality_and_contribution.2 (midnight 1000) ⟨1000, 1⟩
      ⟨1, "Two Sum", some "easy", ["Array"], ""⟩ "Array" rfl (by decide)
  rw [hcalc]
  simp only [List.map_cons, List.map_nil]
  rw [hsum, if_neg (by decide)]

end LeetAI

namespace LeetAI

/-! ## C6: the two-submission "Array" scenario -/

/-- **C6.** With exactly two (submission, problem) pairs — "Two Sum"
(easy, topics ["Array", "Hash Table"]) solved on the reference day and
"Median of Two Sorted Arrays" (hard, topics ["Array"]) solved 10 days
earlier — the topic record for "Array" has weighted score
1·1·1.0 + 3·0.5 = 2.5, for every reference time on the reference day. -/
theorem C6_array_weighted_score (today t : ℤ) (ht0 : 0 ≤ t) (ht1 : t < usecPerDay) :
    ((calculate_topic_stats
        [(⟨today, 1⟩, ⟨1, "Two Sum", some "easy", ["Array", "Hash Table"],
            "https://leetcode.com/problems/two-sum/"⟩),
         (⟨today - 10, 1⟩, ⟨4, "Median of Two Sorted Arrays", some "hard", ["Array"],
            "https://leetcode.com/problems/median-of-two-sorted-arrays/"⟩)]
        (midnight today + t)).find? (fun r => r.topic == "Array")).map
      (fun r => r.weighted_score) = some (5/2) := by
  have ht1' : t < 86400000000 := ht1
  have hw1 : which_window today (get_time_windows (midnight today + t)) = WindowKey.w3 := by
    unfold which_window get_time_windows midnight usecPerDay
    simp only []
    split_ifs <;> first | rfl | omega
  have hw2 : which_window (today - 10) (get_time_windows (midnight today + t)) =
      WindowKey.w14 := by
    unfold which_window get_time_windows midnight usecPerDay
    simp only []
    split_ifs <;> first | rfl | omega
  have hA : py_strip "Array" = "Array" := rfl
  have hH : py_strip "Hash Table" = "Hash Table" := rfl
  have e1 : (("Array" : String) = "") = False := eq_false (by decide)
  have e2 : (("Hash Table" : String) = "") = False := eq_false (by decide)
  have e3 : (("Array" : String) = "Hash Table") = False := eq_false (by decide)
  have e4 : (("Array" : String) = "Array") = True := eq_true rfl
  have e5 : (today - 10 > today) = False := eq_false (by omega)
  have d1 : normalize_difficulty (some "easy") = Diff.easy := rfl
  have d2 : normalize_difficulty (some "hard") = Diff.hard := rfl
  simp only [calculate_topic_stats, process_pair, List.foldl, hw1, hw2, d1, d2, hA, hH,
    e1, e2, e3, e4, e5, if_true, if_false, bump, List.map]
  simp only [mk_stats, sort_score_desc, List.foldl, insertScoreDesc]
  simp
  have hs1 : round2 (weighted_score_calc 1 0 0 0 0 0 0 0 1 0 0 0) = 5/2 := by
    norm_num [round2, round_half_even, weighted_score_calc]
  have hs2 : round2 (weighted_score_calc 1 0 0 0 0 0 0 0 0 0 0 0) = 1 := by
    norm_num [round2, round_half_even, weighted_score_calc]
  rw [hs1, hs2, if_pos (by norm_num)]
  simp [List.find?]

/-- **C6 (witness).** The scenario theorem applied at the concrete
reference day 1000, midnight. -/
theorem C6_array_weighted_score_witness :
    (0 : ℤ) ≤ 0 ∧ (0 : ℤ) < usecPerDay ∧
    ((calculate_topic_stats
        [(⟨1000, 1⟩, ⟨1, "Two Sum", some "easy", ["Array", "Hash Table"],
            "https://leetcode.com/problems/two-sum/"⟩),
         (⟨(1000 : ℤ) - 10, 1⟩, ⟨4, "Median of Two Sorted Arrays", some "hard", ["Array"],
            "https://leetcode.com/problems/median-of-two-sorted-arrays/"⟩)]
        (midnight 1000 + 0)).find? (fun r => r.topic == "Array")).map
      (fun r => r.weighted_score) = some (5/2) :=
  ⟨le_refl 0, by decide, C6_array_weighted_score 1000 0 (le_refl 0) (by decide)⟩

end LeetAI

namespace LeetAI

/-! ## Streak calculator (`_compute_streaks`) -/

/-- The `while d in dates_set: streak += 1; d = d - timedelta(days=1)`
loop of `_compute_streaks`, with an explicit fuel bound.  The source loop
terminates because each iteration visits a fresh member of the finite
set; with `fuel = s.card + 1` the fuel never runs out before the loop's
own exit condition (proved below: the result is always `≤ s.card`), so
this function computes exactly what the unbounded loop computes. -/
def current_streak_loop (s : Finset ℤ) : ℤ → ℕ → ℕ
  | _, 0 => 0
  | d, fuel + 1 => if d ∈ s then 1 + current_streak_loop s (d - 1) fuel else 0

/-- The `for i in range(1, len(sorted_dates))` longest-streak walk of
`_compute_streaks`: `prev` is `sorted_dates[i-1]`, and the final
`longest = max(longest, current)` is folded into the base case. -/
def longest_loop : ℤ → ℕ → ℕ → List ℤ → ℕ
  | _, longest, current, [] => max longest current
  | prev, longest, current, d :: rest =>
    if d - prev = 1 then longest_loop d longest (current + 1) rest
    else longest_loop d (max longest current) 1 rest

/-- `_compute_streaks` from `backend/analytics.py`: `(current, longest)`
from the set of distinct solved dates and `datetime.now().date()`.
The sorted ascending list is `s.sort (· ≤ ·)` (Python `sorted` on a set
of dates); the `[]` branch of the match is unreachable for non-empty
`s` and returns the initial `longest = 1`. -/
def compute_streaks (s : Finset ℤ) (today : ℤ) : ℕ × ℕ :=
  if s = ∅ then (0, 0)
  else
    let longest :=
      match s.sort (· ≤ ·) with
      | [] => 1
      | d :: rest => longest_loop d 1 1 rest
    (current_streak_loop s today (s.card + 1), longest)

theorem csl_mem (s : Finset ℤ) :
    ∀ (fuel : ℕ) (d : ℤ) (i : ℕ), i < current_streak_loop s d fuel → d - (i : ℤ) ∈ s := by
  intro fuel
  induction fuel with
  | zero => intro d i h; simp [current_streak_loop] at h
  | succ n ih =>
    intro d i h
    simp only [current_streak_loop] at h
    by_cases hd : d ∈ s
    · rw [if_pos hd] at h
      cases i with
      | zero => simpa using hd
      | succ j =>
        have hj : j < current_streak_loop s (d - 1) n := by omega
        have hmem := ih (d - 1) j hj
        have heq : d - ((j + 1 : ℕ) : ℤ) = d - 1 - (j : ℤ) := by push_cast; ring
        rw [heq]
        exact hmem
    · rw [if_neg hd] at h
      omega

theorem csl_stop (s : Finset ℤ) :
    ∀ (fuel : ℕ) (d : ℤ), current_streak_loop s d fuel < fuel →
      d - (current_streak_loop s d fuel : ℤ) ∉ s := by
  intro fuel
  induction fuel with
  | zero => intro d h; omega
  | succ n ih =>
    intro d h
    simp only [current_streak_loop] at h ⊢
    by_cases hd : d ∈ s
    · rw [if_pos hd] at h ⊢
      have h' : current_streak_loop s (d - 1) n < n := by omega
      have hstop := ih (d - 1) h'
      have heq : d - ((1 + current_streak_loop s (d - 1) n : ℕ) : ℤ) =
          d - 1 - (current_streak_loop s (d - 1) n : ℤ) := by push_cast; ring
      rw [heq]
      exact hstop
    · rw [if_neg hd]
      simpa using hd

theorem csl_le_card (s : Finset ℤ) (fuel : ℕ) (d : ℤ) :
    current_streak_loop s d fuel ≤ s.card := by
  classical
  have hmaps : ∀ i ∈ Finset.range (current_streak_loop s d fuel), d - (i : ℤ) ∈ s := by
    intro i hi
    exact csl_mem s fuel d i (Finset.mem_range.mp hi)
  have hinj : Set.InjOn (fun i : ℕ => d - (i : ℤ)) (Finset.range (current_streak_loop s d fuel)) := by
    intro a _ b _ hab
    simp only at hab
    omega
  have := Finset.card_le_card_of_injOn (fun i : ℕ => d - (i : ℤ)) hmaps hinj
  simpa using this

end LeetAI

namespace LeetAI

/-- Membership in the "virtual set" the longest-streak walk still has to
account for: the run of `c` consecutive values ending at `prev` (the
`current` counter), together with the unprocessed suffix of the sorted
list. -/
def inVirt (prev : ℤ) (c : ℕ) (rest : List ℤ) (z : ℤ) : Prop :=
  (∃ i : ℕ, i < c ∧ z = prev - (i : ℤ)) ∨ z ∈ rest

theorem longest_loop_extract :
    ∀ (rest : List ℤ) (prev : ℤ) (L c : ℕ), 1 ≤ c →
      longest_loop prev L c rest = max L (longest_loop prev 1 c rest) := by
  intro rest
  induction rest with
  | nil =>
    intro prev L c hc
    simp only [longest_loop]
    omega
  | cons e rest ih =>
    intro prev L c hc
    simp only [longest_loop]
    split_ifs with h1
    · exact ih e L (c + 1) (by omega)
    · rw [ih e (max L c) 1 le_rfl, ih e (max 1 c) 1 le_rfl]
      omega

theorem longest_loop_spec :
    ∀ (rest : List ℤ) (prev : ℤ) (c : ℕ), 1 ≤ c →
      List.Sorted (· < ·) (prev :: rest) →
      (∃ d : ℤ, ∀ i : ℕ, i < longest_loop prev 1 c rest → inVirt prev c rest (d + (i : ℤ))) ∧
      (∀ (d : ℤ) (k : ℕ), (∀ i : ℕ, i < k → inVirt prev c rest (d + (i : ℤ))) →
        k ≤ longest_loop prev 1 c rest) := by
  intro rest
  induction rest with
  | nil =>
    intro prev c hc _
    constructor
    · refine ⟨prev - (c : ℤ) + 1, ?_⟩
      intro i hi
      simp only [longest_loop] at hi
      exact Or.inl ⟨c - 1 - i, by omega, by omega⟩
    · intro d k hk
      simp only [longest_loop]
      rcases Nat.eq_zero_or_pos k with rfl | hkpos
      · omega
      · rcases hk 0 (by omega) with ⟨i0, hi0, he0⟩ | h0'
        · rcases hk (k - 1) (by omega) with ⟨i1, hi1, he1⟩ | hl'
          · omega
          · simp at hl'
        · simp at h0'
  | cons e rest ih =>
    intro prev c hc hsorted
    have hpe : prev < e := (List.sorted_cons.mp hsorted).1 e (by simp)
    have hsorted' : List.Sorted (· < ·) (e :: rest) := (List.sorted_cons.mp hsorted).2
    have hrest : ∀ z ∈ rest, e < z := (List.sorted_cons.mp hsorted').1
    by_cases h1 : e - prev = 1
    · have hll : longest_loop prev 1 c (e :: rest) = longest_loop e 1 (c + 1) rest := by
        simp only [longest_loop, if_pos h1]
      have htrans : ∀ z, inVirt prev c (e :: rest) z ↔ inVirt e (c + 1) rest z := by
        intro z
        unfold inVirt
        constructor
        · rintro (⟨i, hi, rfl⟩ | hz)
          · exact Or.inl ⟨i + 1, by omega, by omega⟩
          · rcases List.mem_cons.mp hz with rfl | hz'
            · exact Or.inl ⟨0, by omega, by omega⟩
            · exact Or.inr hz'
        · rintro (⟨i, hi, rfl⟩ | hz)
          · rcases Nat.eq_zero_or_pos i with rfl | hipos
            · refine Or.inr ?_
              have hze : e - ((0 : ℕ) : ℤ) = e := by omega
              rw [hze]
              exact List.mem_cons_self e rest
            · exact Or.inl ⟨i - 1, by omega, by omega⟩
          · exact Or.inr (List.mem_cons_of_mem _ hz)
      obtain ⟨⟨d0, hd0⟩, hbound⟩ := ih e (c + 1) (by omega) hsorted'
      constructor
      · refine ⟨d0, fun i hi => ?_⟩
        rw [hll] at hi
        exact (htrans _).mpr (hd0 i hi)
      · intro d k hk
        rw [hll]
        exact hbound d k (fun i hi => (htrans _).mp (hk i hi))
    · have hgap : prev + 2 ≤ e := by omega
      have hll : longest_loop prev 1 c (e :: rest) = max c (longest_loop e 1 1 rest) := by
        simp only [longest_loop, if_neg h1]
        rw [longest_loop_extract rest e (max 1 c) 1 le_rfl]
        omega
      obtain ⟨⟨d0, hd0⟩, hbound⟩ := ih e 1 le_rfl hsorted'
      have hVhigh : ∀ z, inVirt prev c (e :: rest) z → prev + 1 ≤ z → inVirt e 1 rest z := by
        intro z hz hge
        rcases hz with ⟨i, hi, rfl⟩ | hz'
        · omega
        · rcases List.mem_cons.mp hz' with rfl | hz''
          · exact Or.inl ⟨0, by omega, by omega⟩
          · exact Or.inr hz''
      have hVlow : ∀ z, inVirt prev c (e :: rest) z → z ≤ prev →
          ∃ i : ℕ, i < c ∧ z = prev - (i : ℤ) := by
        intro z hz hle
        rcases hz with h | hz'
        · exact h
        · rcases List.mem_cons.mp hz' with rfl | hz''
          · omega
          · have := hrest z hz''
            omega
      have hVnotgap : ¬ inVirt prev c (e :: rest) (prev + 1) := by
        rintro (⟨i, hi, hei⟩ | h')
        · omega
        · rcases List.mem_cons.mp h' with heq | h''
          · omega
          · have := hrest _ h''
            omega
      rw [hll]
      constructor
      · rcases le_total (longest_loop e 1 1 rest) c with hle | hle
        · refine ⟨prev - (c : ℤ) + 1, ?_⟩
          intro i hi
          exact Or.inl ⟨c - 1 - i, by omega, by omega⟩
        · refine ⟨d0, ?_⟩
          intro i hi
          have hv := hd0 i (by omega)
          rcases hv with ⟨j, hj, hje⟩ | hv'
          · refine Or.inr ?_
            have : d0 + (i : ℤ) = e := by omega
            rw [this]
            exact List.mem_cons_self e rest
          · exact Or.inr (List.mem_cons_of_mem _ hv')
      · intro d k hk
        rcases Nat.eq_zero_or_pos k with rfl | hkpos
        · omega
        by_cases hd : prev + 2 ≤ d
        · have hk' : k ≤ longest_loop e 1 1 rest := by
            refine hbound d k ?_
            intro i hi
            exact hVhigh _ (hk i hi) (by omega)
          omega
        · by_cases hend : d + ((k - 1 : ℕ) : ℤ) ≤ prev
          · obtain ⟨i0, hi0, he0⟩ := hVlow _ (hk 0 (by omega)) (by omega)
            obtain ⟨i1, hi1, he1⟩ := hVlow _ (hk (k - 1) (by omega)) hend
            omega
          · exfalso
            apply hVnotgap
            have hgm := hk (prev + 1 - d).toNat (by omega)
            have : d + (((prev + 1 - d).toNat : ℕ) : ℤ) = prev + 1 := by omega
            rwa [this] at hgm

end LeetAI

namespace LeetAI

/-- **C5.** For every set of distinct solved-dates: `current_streak_days`
(the first component) is the largest `k ≥ 0` with
`today, today-1, …, today-(k-1)` all in the set — in particular 0
whenever today is absent — and `longest_streak_days` (the second
component) is 0 for the empty set and, for a non-empty set, is at least
1, is realised by some run of consecutive days inside the set, and
bounds every such run. -/
theorem C5_streaks (s : Finset ℤ) (today : ℤ) :
    ((∀ i : ℕ, i < (compute_streaks s today).1 → today - (i : ℤ) ∈ s) ∧
     (∀ k : ℕ, (∀ i : ℕ, i < k → today - (i : ℤ) ∈ s) → k ≤ (compute_streaks s today).1) ∧
     (today ∉ s → (compute_streaks s today).1 = 0)) ∧
    ((s = ∅ → (compute_streaks s today).2 = 0) ∧
     (s ≠ ∅ →
       1 ≤ (compute_streaks s today).2 ∧
       (∃ d : ℤ, ∀ i : ℕ, i < (compute_streaks s today).2 → d + (i : ℤ) ∈ s) ∧
       (∀ (d : ℤ) (k : ℕ), (∀ i : ℕ, i < k → d + (i : ℤ) ∈ s) →
         k ≤ (compute_streaks s today).2))) := by
  by_cases hs : s = ∅
  · subst hs
    refine ⟨⟨?_, ?_, ?_⟩, ?_, ?_⟩
    · intro i hi
      simp [compute_streaks] at hi
    · intro k hk
      rcases Nat.eq_zero_or_pos k with rfl | hkpos
      · simp [compute_streaks]
      · have := hk 0 hkpos
        simp at this
    · intro _
      simp [compute_streaks]
    · intro _
      simp [compute_streaks]
    · intro h
      exact absurd rfl h
  · have hcur : (compute_streaks s today).1 = current_streak_loop s today (s.card + 1) := by
      simp only [compute_streaks, if_neg hs]
    have hfuel : current_streak_loop s today (s.card + 1) < s.card + 1 :=
      Nat.lt_succ_of_le (csl_le_card s (s.card + 1) today)
    refine ⟨⟨?_, ?_, ?_⟩, ?_, ?_⟩
    · intro i hi
      rw [hcur] at hi
      exact csl_mem s (s.card + 1) today i hi
    · intro k hk
      rw [hcur]
      by_contra hcon
      push_neg at hcon
      have hmem := hk (current_streak_loop s today (s.card + 1)) hcon
      exact csl_stop s (s.card + 1) today hfuel hmem
    · intro htoday
      rw [hcur]
      by_contra hcon
      have h0 : 0 < current_streak_loop s today (s.card + 1) := by omega
      have := csl_mem s (s.card + 1) today 0 h0
      simp at this
      exact htoday this
    · intro h
      exact absurd h hs
    · intro _
      have hnil : s.sort (· ≤ ·) ≠ [] := by
        intro h
        have hlen := Finset.length_sort (α := ℤ) (· ≤ ·) (s := s)
        rw [h] at hlen
        simp only [List.length_nil] at hlen
        exact hs (Finset.card_eq_zero.mp hlen.symm)
      obtain ⟨x, xs, hxs⟩ : ∃ x xs, s.sort (· ≤ ·) = x :: xs := by
        cases h : s.sort (· ≤ ·) with
        | nil => exact absurd h hnil
        | cons a l => exact ⟨a, l, rfl⟩
      have hsorted : List.Sorted (· < ·) (x :: xs) := by
        rw [← hxs]
        exact Finset.sort_sorted_lt s
      have hmem : ∀ z : ℤ, inVirt x 1 xs z ↔ z ∈ s := by
        intro z
        unfold inVirt
        constructor
        · rintro (⟨i, hi, rfl⟩ | hz)
          · have hzz : x - (i : ℤ) = x := by omega
            rw [hzz, ← Finset.mem_sort (α := ℤ) (· ≤ ·), hxs]
            exact List.mem_cons_self x xs
          · rw [← Finset.mem_sort (α := ℤ) (· ≤ ·), hxs]
            exact List.mem_cons_of_mem _ hz
        · intro hz
          rw [← Finset.mem_sort (α := ℤ) (· ≤ ·), hxs] at hz
          rcases List.mem_cons.mp hz with rfl | hz'
          · exact Or.inl ⟨0, by omega, by omega⟩
          · exact Or.inr hz'
      have hlng : (compute_streaks s today).2 = longest_loop x 1 1 xs := by
        simp only [compute_streaks, if_neg hs, hxs]
      obtain ⟨⟨d0, hd0⟩, hbound⟩ := longest_loop_spec xs x 1 le_rfl hsorted
      refine ⟨?_, ⟨d0, ?_⟩, ?_⟩
      · rw [hlng]
        refine hbound x 1 ?_
        intro i hi
        exact Or.inl ⟨0, by omega, by omega⟩
      · intro i hi
        rw [hlng] at hi
        exact (hmem _).mp (hd0 i hi)
      · intro d k hk
        rw [hlng]
        exact hbound d k (fun i hi => (hmem _).mpr (hk i hi))

/-- **C5 (witness).** For the set {today-2, today-1, today} at
`today = 1000`, both streak metrics equal 3, derived by applying the
characterization theorem at this concrete input. -/
theorem C5_streaks_witness :
    (compute_streaks ({998, 999, 1000} : Finset ℤ) 1000).1 = 3 ∧
    (compute_streaks ({998, 999, 1000} : Finset ℤ) 1000).2 = 3 := by
  obtain ⟨⟨hcmem, hcmax, -⟩, -, hlong⟩ := C5_streaks ({998, 999, 1000} : Finset ℤ) 1000
  obtain ⟨-, ⟨d0, hrun⟩, hub⟩ := hlong (by decide)
  constructor
  · have h3 : 3 ≤ (compute_streaks ({998, 999, 1000} : Finset ℤ) 1000).1 := by
      refine hcmax 3 ?_
      intro i hi
      interval_cases i <;> decide
    have h4 : (compute_streaks ({998, 999, 1000} : Finset ℤ) 1000).1 ≤ 3 := by
      by_contra hcon
      push_neg at hcon
      have := hcmem 3 hcon
      simp at this
    omega
  · have h3 : 3 ≤ (compute_streaks ({998, 999, 1000} : Finset ℤ) 1000).2 := by
      refine hub 998 3 ?_
      intro i hi
      interval_cases i <;> decide
    have h4 : (compute_streaks ({998, 999, 1000} : Finset ℤ) 1000).2 ≤ 3 := by
      by_contra hcon
      push_neg at hcon
      have hin0 := hrun 0 (by omega)
      have hin3 := hrun 3 hcon
      have hb0 : d0 ∈ ({998, 999, 1000} : Finset ℤ) := by simpa using hin0
      have hb3 : d0 + 3 ∈ ({998, 999, 1000} : Finset ℤ) := by simpa using hin3
      simp [Finset.mem_insert] at hb0 hb3
      omega
    omega

end LeetAI

namespace LeetAI

/-! ## JSON values and `ClaudeClient._parse_response` (`backend/claude.py`) -/

/-- JSON values as returned by Python `json.loads`.  The parser itself
(`json.loads`, part of the Python standard library, an external
collaborator) is abstracted as a function `List Char → Option Json`:
`none` models a raised `json.JSONDecodeError`. -/
inductive Json where
  | null
  | bool (b : Bool)
  | num (q : ℚ)
  | str (s : String)
  | arr (items : List Json)
  | obj (fields : List (String × Json))

/-- The opening curly brace character. -/
def lbrace : Char := Char.ofNat 123

/-- The closing curly brace character. -/
def rbrace : Char := Char.ofNat 125

/-- Python `str.find(c)`: index of the first occurrence, `-1` if absent. -/
def py_find (c : Char) : List Char → ℤ
  | [] => -1
  | x :: xs =>
    if x = c then 0
    else if py_find c xs = -1 then -1 else py_find c xs + 1

/-- Python `str.rfind(c)`: index of the last occurrence, `-1` if absent. -/
def py_rfind (c : Char) : List Char → ℤ
  | [] => -1
  | x :: xs =>
    if py_rfind c xs = -1 then (if x = c then 0 else -1) else py_rfind c xs + 1

/-- The hard-coded "fallback minimal structure to avoid crashing callers"
returned by `_parse_response` when both parse attempts fail. -/
def default_plan_structure : Json :=
  .obj [("focus_topic", .str "General Review"),
        ("recommendations", .arr []),
        ("rationale", .str "Failed to parse structured response; please retry.")]

/-- `ClaudeClient._parse_response`: try `json.loads` on the whole text;
on failure, extract `text[start : end + 1]` between the first opening
brace and the last closing brace and try again; on failure (or when no
such span exists), return the hard-coded default structure. -/
def parse_response (loads : List Char → Option Json) (text : List Char) : Json :=
  match loads text with
  | some j => j
  | none =>
    let s := py_find lbrace text
    let e := py_rfind rbrace text
    if 0 ≤ s ∧ s < e then
      match loads ((text.drop s.toNat).take (e.toNat + 1 - s.toNat)) with
      | some j => j
      | none => default_plan_structure
    else default_plan_structure

theorem py_find_neg (c : Char) : ∀ l : List Char, py_find c l = -1 ↔ c ∉ l := by
  intro l
  induction l with
  | nil => simp [py_find]
  | cons x xs ih =>
    simp only [py_find, List.mem_cons]
    split_ifs with h1 h2
    · subst h1; simp
    · simp [h1, ih.mp h2]
      intro h; exact h1 h.symm
    · constructor
      · intro h; exfalso; have := py_find_nonneg_aux c xs h2; omega
      · intro h; exfalso; exact h2 (ih.mpr (fun hm => h (Or.inr hm)))
where
  py_find_nonneg_aux (c : Char) (l : List Char) (h : ¬ py_find c l = -1) :
      0 ≤ py_find c l := by
    induction l with
    | nil => simp [py_find] at h
    | cons x xs ih =>
      simp only [py_find] at h ⊢
      split_ifs at h ⊢ with h1 h2
      · omega
      · omega
      · have := ih h2
        omega

end LeetAI

namespace LeetAI

theorem py_find_nonneg (c : Char) (l : List Char) (h : ¬ py_find c l = -1) :
    0 ≤ py_find c l := by
  induction l with
  | nil => simp [py_find] at h
  | cons x xs ih =>
    simp only [py_find] at h ⊢
    split_ifs at h ⊢ with h1 h2
    · omega
    · omega
    · have := ih h2
      omega

theorem py_rfind_nonneg (c : Char) (l : List Char) (h : ¬ py_rfind c l = -1) :
    0 ≤ py_rfind c l := by
  induction l with
  | nil => simp [py_rfind] at h
  | cons x xs ih =>
    simp only [py_rfind] at h ⊢
    split_ifs at h ⊢ with h1 h2
    · omega
    · omega
    · have := ih h1
      omega

theorem py_rfind_neg (c : Char) : ∀ l : List Char, py_rfind c l = -1 ↔ c ∉ l := by
  intro l
  induction l with
  | nil => simp [py_rfind]
  | cons x xs ih =>
    simp only [py_rfind, List.mem_cons]
    split_ifs with h1 h2
    · subst h2
      simp [ih.mp h1]
    · simp [ih.mp h1]
      intro h
      exact h2 h.symm
    · constructor
      · intro h
        exfalso
        have := py_rfind_nonneg c xs h1
        omega
      · intro h
        exact absurd (ih.mpr fun hm => h (Or.inr hm)) h1

theorem py_find_spec (c : Char) : ∀ l : List Char, 0 ≤ py_find c l →
    l.get? (py_find c l).toNat = some c ∧
    ∀ j < (py_find c l).toNat, l.get? j ≠ some c := by
  intro l
  induction l with
  | nil => simp [py_find]
  | cons x xs ih =>
    intro hpos
    simp only [py_find] at hpos ⊢
    split_ifs at hpos ⊢ with h1 h2
    · subst h1
      constructor
      · rfl
      · intro j hj
        omega
    · omega
    · have hsub : 0 ≤ py_find c xs := py_find_nonneg c xs h2
      obtain ⟨hget, hfirst⟩ := ih hsub
      have htn : (py_find c xs + 1).toNat = (py_find c xs).toNat + 1 := by omega
      rw [htn]
      constructor
      · simpa using hget
      · intro j hj
        cases j with
        | zero =>
          simp only [List.get?_cons_zero]
          intro hc
          exact h1 (Option.some.inj hc)
        | succ n =>
          simp only [List.get?_cons_succ]
          exact hfirst n (by omega)

theorem py_rfind_spec (c : Char) : ∀ l : List Char, 0 ≤ py_rfind c l →
    l.get? (py_rfind c l).toNat = some c ∧
    ∀ j, (py_rfind c l).toNat < j → l.get? j ≠ some c := by
  intro l
  induction l with
  | nil => simp [py_rfind]
  | cons x xs ih =>
    intro hpos
    simp only [py_rfind] at hpos ⊢
    split_ifs at hpos ⊢ with h1 h2
    · have hnotin : c ∉ xs := (py_rfind_neg c xs).mp h1
      constructor
      · simp [h2]
      · intro j hj
        cases j with
        | zero => omega
        | succ n =>
          simp only [List.get?_cons_succ]
          intro hc
          exact hnotin (List.get?_mem hc)
    · omega
    · have hsub : 0 ≤ py_rfind c xs := py_rfind_nonneg c xs h1
      obtain ⟨hget, hlast⟩ := ih hsub
      have htn : (py_rfind c xs + 1).toNat = (py_rfind c xs).toNat + 1 := by omega
      rw [htn]
      constructor
      · simpa using hget
      · intro j hj
        cases j with
        | zero => omega
        | succ n =>
          simp only [List.get?_cons_succ]
          exact hlast n (by omega)

/-- **C8.** `_parse_response` is total (never raises) and, for every
text and every behaviour of the underlying JSON parser, returns exactly
one of: the direct parse result; the parse result of the substring
running from the first opening brace to the last closing brace (when the
direct parse fails and that substring parses); or the hard-coded default
structure (focus topic "General Review", empty recommendations,
fallback rationale). -/
theorem C8_parse_response_total (loads : List Char → Option Json) (text : List Char) :
    (∃ j, loads text = some j ∧ parse_response loads text = j) ∨
    (loads text = none ∧
      ∃ s e : ℕ, s < e ∧
        text.get? s = some lbrace ∧ (∀ j < s, text.get? j ≠ some lbrace) ∧
        text.get? e = some rbrace ∧ (∀ j, e < j → text.get? j ≠ some rbrace) ∧
        ∃ j, loads ((text.drop s).take (e + 1 - s)) = some j ∧
          parse_response loads text = j) ∨
    (loads text = none ∧ parse_response loads text = default_plan_structure) := by
  unfold parse_response
  cases hl : loads text with
  | some j => exact Or.inl ⟨j, rfl, rfl⟩
  | none =>
    simp only []
    by_cases hcond : 0 ≤ py_find lbrace text ∧ py_find lbrace text < py_rfind rbrace text
    · rw [if_pos hcond]
      obtain ⟨hf, hlt⟩ := hcond
      have he : 0 ≤ py_rfind rbrace text := by omega
      obtain ⟨hfget, hffirst⟩ := py_find_spec lbrace text hf
      obtain ⟨hrget, hrlast⟩ := py_rfind_spec rbrace text he
      cases hsub : loads ((text.drop (py_find lbrace text).toNat).take
          ((py_rfind rbrace text).toNat + 1 - (py_find lbrace text).toNat)) with
      | some j2 =>
        refine Or.inr (Or.inl ⟨trivial, (py_find lbrace text).toNat, (py_rfind rbrace text).toNat,
          by omega, hfget, ?_, hrget, ?_, j2, hsub, rfl⟩)
        · intro j hj
          exact hffirst j hj
        · intro j hj
          exact hrlast j hj
      | none => exact Or.inr (Or.inr ⟨trivial, rfl⟩)
    · rw [if_neg hcond]
      exact Or.inr (Or.inr ⟨trivial, rfl⟩)

end LeetAI

namespace LeetAI

/-! ## Phase 1 topic decision (`claude.py` + `main.py` lines 369–377) -/

/-- Python `parsed.get(key)` for a JSON object (`dict.get`: first
matching key, `None`→`none` when absent).  The parsed value is used as a
dict by all callers; non-dict values have no keys. -/
def get_key (j : Json) (k : String) : Option Json :=
  match j with
  | .obj fields => (fields.find? (fun p => p.1 == k)).map (fun p => p.2)
  | _ => none

/-- Python `key in parsed` for a JSON object (dict key membership). -/
def has_key (j : Json) (k : String) : Bool :=
  match j with
  | .obj fields => fields.any (fun p => p.1 == k)
  | _ => false

/-- `isinstance(parsed.get("review_topics"), list)`. -/
def is_list_value (v : Option Json) : Bool :=
  match v with
  | some (.arr _) => true
  | _ => false

/-- The `"{}"` text the client substitutes when the Anthropic call
raises (`content_text = "{}"` in every `except` branch). -/
def jsonEmptyText : List Char := [lbrace, rbrace]

/-- The hard-coded fallback of `ClaudeClient.generate_topics_decision`:
`{"new_topic": "Arrays", "review_topics": ["Two Pointers"]}`. -/
def claude_fallback_decision : Json :=
  .obj [("new_topic", .str "Arrays"), ("review_topics", .arr [.str "Two Pointers"])]

/-- `ClaudeClient.generate_topics_decision`, with the transport layer
abstracted: `llm = .error ()` models any exception raised by the
Anthropic SDK / HTTP call (handled by setting `content_text = "{}"`),
`llm = .ok t` a response with text `t`.  After parsing, the client
checks `"new_topic" in parsed` and `isinstance(parsed.get("review_topics"), list)`
and substitutes its hard-coded fallback when the check fails. -/
def generate_topics_decision (loads : List Char → Option Json)
    (llm : Except Unit (List Char)) : Json :=
  let content_text : List Char :=
    match llm with
    | .error _ => jsonEmptyText
    | .ok t => t
  let parsed := parse_response loads content_text
  if has_key parsed "new_topic" && is_list_value (get_key parsed "review_topics") then
    parsed
  else
    claude_fallback_decision

/-- Modelled from the spec: the pydantic schema `TopicsDecision` is
imported by `main.py` from `backend.schemas` but its definition is not
in the repository sources; per §4.5 of the spec, validation requires "a
non-null `new_topic` and a list-typed `review_topics`". -/
def topics_decision_valid (j : Json) : Bool :=
  (match get_key j "new_topic" with
   | some .null => false
   | some _ => true
   | none => false) &&
  (match get_key j "review_topics" with
   | some (.arr _) => true
   | _ => false)

/-- One step of a stable ascending insertion sort on weighted score,
reproducing Python's stable `sorted(topic_stats, key=weighted_score)`. -/
def insertScoreAsc (x : TopicStats) : List TopicStats → List TopicStats
  | [] => [x]
  | y :: ys =>
    if y.weighted_score ≤ x.weighted_score then y :: insertScoreAsc x ys
    else x :: y :: ys

/-- `sorted(topic_stats, key=lambda t: t.get("weighted_score", 0.0))`. -/
def sort_score_asc (l : List TopicStats) : List TopicStats :=
  l.foldl (fun acc x => insertScoreAsc x acc) []

/-- The validation-plus-fallback block of `get_daily_plan`
(`main.py` lines 369–377): take the client's decision; if it fails
`TopicsDecision` validation, sort the topic stats ascending by weighted
score and pick the lowest as `new_topic` and the next two as
`review_topics` (`"Arrays"` / `[]` when there are no topics). -/
def decision_phase (stats : List TopicStats) (loads : List Char → Option Json)
    (llm : Except Unit (List Char)) : Json :=
  let decision := generate_topics_decision loads llm
  if topics_decision_valid decision then decision
  else
    match sort_score_asc stats with
    | [] => .obj [("new_topic", .str "Arrays"), ("review_topics", .arr [])]
    | t0 :: rest =>
      .obj [("new_topic", .str t0.topic),
            ("review_topics", .arr ((rest.take 2).map (fun t => .str t.topic)))]

end LeetAI

namespace LeetAI

theorem mem_insertScoreAsc {x y : TopicStats} {l : List TopicStats} :
    x ∈ insertScoreAsc y l ↔ x = y ∨ x ∈ l := by
  induction l with
  | nil => simp [insertScoreAsc]
  | cons z zs ih =>
    simp only [insertScoreAsc]
    split_ifs <;> first
      | (simp only [List.mem_cons, ih]; tauto)
      | (simp only [List.mem_cons, ih])

theorem mem_foldl_insertScoreAsc (l : List TopicStats) :
    ∀ (acc : List TopicStats) (x : TopicStats),
      x ∈ l.foldl (fun acc x => insertScoreAsc x acc) acc ↔ x ∈ acc ∨ x ∈ l := by
  induction l with
  | nil => simp
  | cons z zs ih =>
    intro acc x
    simp only [List.foldl_cons, ih, mem_insertScoreAsc, List.mem_cons]
    tauto

theorem mem_sort_score_asc {x : TopicStats} {l : List TopicStats} :
    x ∈ sort_score_asc l ↔ x ∈ l := by
  unfold sort_score_asc
  rw [mem_foldl_insertScoreAsc]
  simp

theorem insertScoreAsc_pairwise (x : TopicStats) (l : List TopicStats)
    (h : l.Pairwise (fun a b => a.weighted_score ≤ b.weighted_score)) :
    (insertScoreAsc x l).Pairwise (fun a b => a.weighted_score ≤ b.weighted_score) := by
  induction l with
  | nil => simp [insertScoreAsc]
  | cons y ys ih =>
    simp only [insertScoreAsc]
    rcases List.pairwise_cons.mp h with ⟨hy, hys⟩
    split_ifs with hle
    · refine List.pairwise_cons.mpr ⟨?_, ih hys⟩
      intro z hz
      rcases mem_insertScoreAsc.mp hz with rfl | hz'
      · exact hle
      · exact hy z hz'
    · push_neg at hle
      refine List.pairwise_cons.mpr ⟨?_, h⟩
      intro z hz
      rcases List.mem_cons.mp hz with rfl | hz'
      · exact le_of_lt hle
      · exact le_trans (le_of_lt hle) (hy z hz')

theorem sort_score_asc_pairwise (l : List TopicStats) :
    (sort_score_asc l).Pairwise (fun a b => a.weighted_score ≤ b.weighted_score) := by
  unfold sort_score_asc
  have h : ∀ acc : List TopicStats,
      acc.Pairwise (fun a b => a.weighted_score ≤ b.weighted_score) →
      (l.foldl (fun acc x => insertScoreAsc x acc) acc).Pairwise
        (fun a b => a.weighted_score ≤ b.weighted_score) := by
    induction l with
    | nil => intro acc hacc; exact hacc
    | cons x xs ih =>
      intro acc hacc
      exact ih (insertScoreAsc x acc) (insertScoreAsc_pairwise x acc hacc)
  exact h [] (by simp)

/-- A one-topic statistics input for the C2 counterexample. -/
def graphsStats : TopicStats :=
  ⟨"Graphs", 0, 0, 0, 0, 0, 0, 0, 0, 0, 0, 0, 0, none, 0⟩

/-- A JSON-parse oracle agreeing with `json.loads` on the only text the
counterexample run feeds it: `"{}"` parses to the empty object. -/
def loads0 : List Char → Option Json :=
  fun l => if l = jsonEmptyText then some (.obj []) else none

/-- **C2 (counterexample).** With a single input topic "Graphs" and a
failing language-model call, the decision returned by the plan
endpoint's decision phase is the hard-coded
`{"new_topic": "Arrays", "review_topics": ["Two Pointers"]}` from
`claude.py`, not the sorted-ascending fallback: the lowest-scoring (and
only) topic is "Graphs", yet the chosen `new_topic` is "Arrays". -/
theorem C2_counterexample :
    decision_phase [graphsStats] loads0 (.error ()) = claude_fallback_decision ∧
    get_key claude_fallback_decision "new_topic" = some (.str "Arrays") ∧
    sort_score_asc [graphsStats] = [graphsStats] ∧
    graphsStats.topic = "Graphs" ∧
    ("Arrays" : String) ≠ "Graphs" := by
  refine ⟨rfl, rfl, rfl, rfl, by decide⟩

/-- **C2 (amended).** The topic decision is deterministic given fixed
inputs, but in two distinct regimes: (1) when the language-model call
fails, `generate_topics_decision` parses `"{}"`, fails its own key
check, and returns the hard-coded constant
`{"new_topic": "Arrays", "review_topics": ["Two Pointers"]}` — which
passes the orchestrator's validation, so the statistics are ignored;
(2) only when the decision that `generate_topics_decision` returns
fails `TopicsDecision` validation does the orchestrator sort the topics
ascending by weighted score and pick the lowest as `new_topic` and the
next two as `review_topics`; the head of that sort is indeed a
lowest-weighted topic. -/
theorem C2_fallback_determinism :
    (∀ (stats : List TopicStats) (loads : List Char → Option Json),
      loads jsonEmptyText = some (.obj []) →
      decision_phase stats loads (.error ()) = claude_fallback_decision) ∧
    (∀ (stats : List TopicStats) (loads : List Char → Option Json)
        (llm : Except Unit (List Char)),
      topics_decision_valid (generate_topics_decision loads llm) = false →
      decision_phase stats loads llm =
        (match sort_score_asc stats with
         | [] => .obj [("new_topic", .str "Arrays"), ("review_topics", .arr [])]
         | t0 :: rest =>
           .obj [("new_topic", .str t0.topic),
                 ("review_topics", .arr ((rest.take 2).map (fun t => .str t.topic)))])) ∧
    (∀ (stats : List TopicStats) (t0 : TopicStats) (rest : List TopicStats),
      sort_score_asc stats = t0 :: rest →
      ∀ t ∈ stats, t0.weighted_score ≤ t.weighted_score) := by
  refine ⟨?_, ?_, ?_⟩
  · intro stats loads hload
    simp only [decision_phase, generate_topics_decision, parse_response, hload]
    rfl
  · intro stats loads llm hinvalid
    simp only [decision_phase, hinvalid]
    rfl
  · intro stats t0 rest hsort t ht
    have hpair := sort_score_asc_pairwise stats
    rw [hsort] at hpair
    have hmem : t ∈ sort_score_asc stats := mem_sort_score_asc.mpr ht
    rw [hsort] at hmem
    rcases List.mem_cons.mp hmem with rfl | hmem'
    · exact le_refl _
    · exact (List.pairwise_cons.mp hpair).1 t hmem'

/-- **C2 (witness).** The transport-failure branch of the amended
theorem applied at a concrete oracle and empty statistics. -/
theorem C2_fallback_determinism_witness :
    decision_phase [] loads0 (.error ()) = claude_fallback_decision :=
  C2_fallback_determinism.1 [] loads0 rfl

end LeetAI

namespace LeetAI

/-! ## C4: the daily-plan cache (`get_daily_plan`, `main.py` lines 330–413) -/

/-- A row of the `daily_plans` table.  The `problem_recommendations`
column is JSONB; `focus_topic`/`ai_rationale` are kept as the JSON
values the code passes through. -/
structure DailyPlanRecord where
  id : ℕ
  plan_date : ℤ
  available_time_minutes : ℤ
  custom_instructions : Option String
  problem_recommendations : Json
  focus_topic : Json
  ai_rationale : Json
  created_at : ℤ

/-- The response dict both branches of `get_daily_plan` build. -/
structure PlanResponse where
  id : ℕ
  plan_date : ℤ
  available_time_minutes : ℤ
  focus_topic : Json
  recommendations : Json
  ai_rationale : Json
  created_at : ℤ
  is_cached : Bool

/-- The SQLAlchemy filter of the cache lookup:
`plan_date == plan_date AND available_time_minutes == time_minutes AND
custom_instructions == custom_instructions`.  SQL `col == None`
compiles to `IS NULL`: a `None` time budget matches no stored row (the
column is NOT NULL), and a `None` custom-instructions value matches
exactly the rows whose column is NULL. -/
def plan_filter_match (r : DailyPlanRecord) (pd : ℤ) (tm : Option ℤ)
    (ci : Option String) : Bool :=
  (r.plan_date == pd) &&
  (match tm with
   | some v => r.available_time_minutes == v
   | none => false) &&
  (match ci with
   | some c => r.custom_instructions == some c
   | none => r.custom_instructions == none)

/-- Build the response dict from a stored/just-persisted record. -/
def mk_plan_response (r : DailyPlanRecord) (cached : Bool) : PlanResponse :=
  ⟨r.id, r.plan_date, r.available_time_minutes, r.focus_topic,
    r.problem_recommendations, r.ai_rationale, r.created_at, cached⟩

/-- Python truthiness of a JSON value (`None`, `False`, `0`, `""`,
`[]`, `{}` are falsy). -/
def py_falsy : Json → Bool
  | .null => true
  | .bool b => !b
  | .num q => q == 0
  | .str s => s == ""
  | .arr l => l.isEmpty
  | .obj l => l.isEmpty

/-- `plan.get(key) or dflt`. -/
def py_get_or (j : Json) (k : String) (dflt : Json) : Json :=
  match get_key j k with
  | none => dflt
  | some v => if py_falsy v then dflt else v

/-- `get_daily_plan` from `main.py`: cache lookup on the exact triple,
400 when generating without a time budget, otherwise run the two-phase
generation (abstracted as `generate`, `none` modelling an exception in
the `try` block → HTTP 500), persist, and return with `is_cached =
false`.  `db.query(...).first()` is the first matching row; the insert
appends; `next_id`/`created_ts` model the autoincrement id and row
timestamp. -/
def get_daily_plan (date? : Option ℤ) (tm? : Option ℤ) (ci? : Option String)
    (db : List DailyPlanRecord) (today : ℤ) (next_id : ℕ) (created_ts : ℤ)
    (generate : Option Json) :
    Except ℕ (PlanResponse × List DailyPlanRecord) :=
  let plan_date := date?.getD today
  match db.find? (fun r => plan_filter_match r plan_date tm? ci?) with
  | some existing => .ok (mk_plan_response existing true, db)
  | none =>
    match tm? with
    | none => .error 400
    | some t =>
      match generate with
      | none => .error 500
      | some plan =>
        let focus_topic := py_get_or plan "focus_topic" (.str "General Review")
        let recommendations := py_get_or plan "recommendations" (.arr [])
        let ai_rationale := py_get_or plan "rationale" (.str "")
        let record : DailyPlanRecord :=
          ⟨next_id, plan_date, t, ci?, recommendations, focus_topic, ai_rationale,
            created_ts⟩
        .ok (mk_plan_response record false, db ++ [record])

theorem plan_filter_match_self (n : ℕ) (pd t : ℤ) (ci : Option String)
    (rec ft ar : Json) (ts : ℤ) :
    plan_filter_match ⟨n, pd, t, ci, rec, ft, ar, ts⟩ pd (some t) ci = true := by
  unfold plan_filter_match
  cases ci <;> simp

theorem find?_append_of_none {α : Type} {p : α → Bool} {l1 l2 : List α}
    (h : l1.find? p = none) : (l1 ++ l2).find? p = l2.find? p := by
  induction l1 with
  | nil => simp
  | cons x xs ih =>
    simp only [List.cons_append, List.find?_cons] at h ⊢
    cases hx : p x with
    | true => simp [hx] at h
    | false =>
      simp only [hx] at h ⊢
      exact ih h

end LeetAI

namespace LeetAI

/-- The record `get_daily_plan` persists on a cache miss. -/
def persisted_plan_record (date? : Option ℤ) (t : ℤ) (ci? : Option String)
    (today : ℤ) (n1 : ℕ) (ts1 : ℤ) (plan : Json) : DailyPlanRecord :=
  ⟨n1, date?.getD today, t, ci?,
    py_get_or plan "recommendations" (.arr []),
    py_get_or plan "focus_topic" (.str "General Review"),
    py_get_or plan "rationale" (.str ""), ts1⟩

/-- **C4.** When no stored plan matches the exact triple
(date, time budget, custom instructions), the endpoint generates,
persists a new record and returns its content with `is_cached = false`;
a second call with the identical triple then returns exactly the
persisted record's content (the same recommendations, focus topic and
rationale values — byte-identical in the embedding) with
`is_cached = true`, without writing anything and without consulting the
generator. -/
theorem C4_plan_cache (date? : Option ℤ) (t : ℤ) (ci? : Option String)
    (db : List DailyPlanRecord) (today : ℤ) (n1 : ℕ) (ts1 : ℤ) (plan : Json)
    (hmiss : ∀ r ∈ db, plan_filter_match r (date?.getD today) (some t) ci? = false) :
    get_daily_plan date? (some t) ci? db today n1 ts1 (some plan) =
      .ok (mk_plan_response (persisted_plan_record date? t ci? today n1 ts1 plan) false,
        db ++ [persisted_plan_record date? t ci? today n1 ts1 plan]) ∧
    (∀ (n2 : ℕ) (ts2 : ℤ) (g2 : Option Json),
      get_daily_plan date? (some t) ci?
          (db ++ [persisted_plan_record date? t ci? today n1 ts1 plan]) today n2 ts2 g2 =
        .ok (mk_plan_response (persisted_plan_record date? t ci? today n1 ts1 plan) true,
          db ++ [persisted_plan_record date? t ci? today n1 ts1 plan])) := by
  have hnone : db.find?
      (fun r => plan_filter_match r (date?.getD today) (some t) ci?) = none := by
    rw [List.find?_eq_none]
    intro x hx
    simp [hmiss x hx]
  constructor
  · simp only [get_daily_plan, hnone]
    rfl
  · intro n2 ts2 g2
    have hfind : (db ++ [persisted_plan_record date? t ci? today n1 ts1 plan]).find?
        (fun r => plan_filter_match r (date?.getD today) (some t) ci?) =
        some (persisted_plan_record date? t ci? today n1 ts1 plan) := by
      rw [find?_append_of_none hnone]
      simp only [List.find?_cons, persisted_plan_record, plan_filter_match_self]
    simp only [get_daily_plan, hfind]

/-- **C4 (witness).** The cache round trip at a concrete key:
first call generates and persists, second call returns the identical
content with the cached flag set, ignoring its own generator. -/
theorem C4_plan_cache_witness :
    get_daily_plan (some 5) (some 60) none [] 5 0 0 (some (.obj [])) =
      .ok (mk_plan_response (persisted_plan_record (some 5) 60 none 5 0 0 (.obj [])) false,
        [persisted_plan_record (some 5) 60 none 5 0 0 (.obj [])]) ∧
    get_daily_plan (some 5) (some 60) none
        [persisted_plan_record (some 5) 60 none 5 0 0 (.obj [])] 5 1 1 none =
      .ok (mk_plan_response (persisted_plan_record (some 5) 60 none 5 0 0 (.obj [])) true,
        [persisted_plan_record (some 5) 60 none 5 0 0 (.obj [])]) := by
  have h := C4_plan_cache (some 5) 60 none [] 5 0 0 (.obj [])
    (by intro r hr; simp at hr)
  exact ⟨by simpa using h.1, by simpa using h.2 1 1 none⟩

end LeetAI

namespace LeetAI

/-! ## Sync endpoint (`sync_leetcode_data`, `main.py` lines 200–306) -/

/-- One normalized record fetched from the LeetCode client. -/
structure FetchItem where
  leetcode_number : ℤ
  title : String
  difficulty : String
  topics : List String
  leetcode_url : String
  solved_date : ℤ

/-- A row of the `problems` table inside the sync session; `id` is
`none` until the row is flushed (dry-run problems are never flushed). -/
structure DbProblem where
  id : Option ℕ
  leetcode_number : ℤ
  title : String
  difficulty : String
  topics : List String
  leetcode_url : String

/-- A row of the `submissions` table inside the sync session. -/
structure DbSubmission where
  problem_id : Option ℕ
  solved_date : ℤ
  attempts : ℕ

/-- The persistent store as the sync endpoint sees it. -/
structure SyncDb where
  problems : List DbProblem
  submissions : List DbSubmission
  next_id : ℕ

/-- The loop state of the sync endpoint: the `existing_problems` dict
(latest binding first), the session's flushed (query-visible, since
`autoflush=False`) and pending submission rows, the problem rows added
this batch, the two counters, and the id sequence. -/
structure SyncState where
  emap : List (ℤ × DbProblem)
  visible_subs : List DbSubmission
  pending_subs : List DbSubmission
  new_problem_rows : List DbProblem
  new_problems : ℕ
  new_submissions : ℕ
  next_id : ℕ

/-- Python dict lookup on the assoc list (latest binding wins). -/
def assoc_lookup (m : List (ℤ × DbProblem)) (k : ℤ) : Option DbProblem :=
  (m.find? (fun p => p.1 == k)).map (fun p => p.2)

/-- `{p.leetcode_number: p for p in db.query(Problem).all()}`. -/
def init_emap (ps : List DbProblem) : List (ℤ × DbProblem) :=
  ps.foldl (fun m p => (p.leetcode_number, p) :: m) []

/-- The submission half of the loop body: in dry-run mode the
existing-submission query is skipped (`existing_submission = None`), so
the counter is always incremented; otherwise the query runs against the
flushed rows and a pending insert is buffered when nothing matches. -/
def sync_sub_step (dry_run : Bool) (st : SyncState) (item : FetchItem)
    (problem : DbProblem) : SyncState :=
  let existing_submission : Option DbSubmission :=
    if dry_run then none
    else st.visible_subs.find?
      (fun sub => sub.problem_id == problem.id && sub.solved_date == item.solved_date)
  match existing_submission with
  | none =>
    if dry_run then { st with new_submissions := st.new_submissions + 1 }
    else { st with new_submissions := st.new_submissions + 1,
                   pending_subs := st.pending_subs ++
                     [⟨problem.id, item.solved_date, 1⟩] }
  | some _ => st

/-- The body of the `for item in fetched:` loop: upsert the problem
(`db.add` + `db.flush()` — which assigns the id and flushes the pending
submissions — only when not in dry-run), then handle the submission. -/
def sync_step (dry_run : Bool) (st : SyncState) (item : FetchItem) : SyncState :=
  match assoc_lookup st.emap item.leetcode_number with
  | some problem => sync_sub_step dry_run st item problem
  | none =>
    let problem : DbProblem :=
      { id := if dry_run then none else some st.next_id
        leetcode_number := item.leetcode_number
        title := item.title
        difficulty := item.difficulty
        topics := if item.topics.isEmpty then ["Unknown"] else item.topics
        leetcode_url := item.leetcode_url }
    let st' :=
      if dry_run then
        { st with emap := (item.leetcode_number, problem) :: st.emap,
                  new_problems := st.new_problems + 1 }
      else
        { st with emap := (item.leetcode_number, problem) :: st.emap,
                  new_problems := st.new_problems + 1,
                  new_problem_rows := st.new_problem_rows ++ [problem],
                  visible_subs := st.visible_subs ++ st.pending_subs,
                  pending_subs := [],
                  next_id := st.next_id + 1 }
    sync_sub_step dry_run st' item problem

/-- The 60-second rate-limit check as written: raise HTTP 429 when less
than 60 seconds have elapsed since `_LAST_SYNC_AT` (which is absent,
`none`, until the first completed non-dry-run sync). -/
def rate_limit_check (last_sync : Option ℤ) (now : ℤ) : Except ℕ Unit :=
  match last_sync with
  | none => .ok ()
  | some t0 => if now - t0 < 60 then .error 429 else .ok ()

/-- `sync_leetcode_data` from `main.py`.  The rate-limit block sits
inside `try: ... except Exception: pass`; `HTTPException` is an
`Exception`, so the 429 raised by the check is swallowed by the blanket
handler and the sync proceeds unconditionally — the check's result is
discarded (`_rl`).  `fetch_result = .error _` models a raised fetch
error (HTTP 502); an empty fetch returns zero counts before any write;
otherwise the loop runs, and a non-dry-run sync commits and records the
sync time. -/
def sync_leetcode_data (last_sync : Option ℤ) (now : ℤ)
    (fetch_result : Except Unit (List FetchItem)) (db : SyncDb) (dry_run : Bool) :
    Except ℕ (ℕ × ℕ × SyncDb × Option ℤ) :=
  let _rl := rate_limit_check last_sync now
  match fetch_result with
  | .error _ => .error 502
  | .ok fetched =>
    if fetched.isEmpty then .ok (0, 0, db, last_sync)
    else
      let st0 : SyncState :=
        ⟨init_emap db.problems, db.submissions, [], [], 0, 0, db.next_id⟩
      let st := fetched.foldl (sync_step dry_run) st0
      if dry_run then .ok (st.new_problems, st.new_submissions, db, last_sync)
      else
        .ok (st.new_problems, st.new_submissions,
          ⟨db.problems ++ st.new_problem_rows, st.visible_subs ++ st.pending_subs,
            st.next_id⟩,
          some now)

end LeetAI

namespace LeetAI

/-- **C9 (code evaluated at the failing input).** A sync request arriving
30 seconds after the previous completed non-dry-run sync: the rate-limit
check, as written, raises 429 — but that `HTTPException` is swallowed by
the surrounding `except Exception: pass`, so the endpoint proceeds,
fetches, inserts the submission, commits, and even refreshes the
last-sync timestamp, instead of rejecting the request. -/
theorem C9_sync_throttle_swallowed :
    rate_limit_check (some 0) 30 = .error 429 ∧
    sync_leetcode_data (some 0) 30
        (.ok [⟨1, "Two Sum", "easy", ["Array"], "", 100⟩])
        ⟨[], [], 0⟩ false =
      .ok (1, 1,
        ⟨[⟨some 0, 1, "Two Sum", "easy", ["Array"], ""⟩],
          [⟨some 0, 100, 1⟩], 1⟩,
        some 30) := by
  constructor
  · rfl
  · rfl

theorem foldl_sync_step_dry (items : List FetchItem) :
    ∀ st : SyncState,
      (items.foldl (sync_step true) st).new_submissions =
        st.new_submissions + items.length := by
  induction items with
  | nil => intro st; simp
  | cons it rest ih =>
    intro st
    have hstep : (sync_step true st it).new_submissions = st.new_submissions + 1 := by
      unfold sync_step
      cases assoc_lookup st.emap it.leetcode_number with
      | some p => unfold sync_sub_step; simp
      | none => unfold sync_sub_step; simp
    rw [List.foldl_cons, ih, hstep]
    simp only [List.length_cons]
    omega

/-- The concrete store for the C10 comparison: problem #1 exists with a
stored submission on day 100. -/
def c10Db : SyncDb :=
  ⟨[⟨some 0, 1, "Two Sum", "easy", ["Array"], ""⟩], [⟨some 0, 100, 1⟩], 1⟩

/-- The fetched record identical to the stored submission. -/
def c10Item : FetchItem := ⟨1, "Two Sum", "easy", ["Array"], "", 100⟩

/-- **C10.** In dry-run mode the existing-submission lookup is skipped,
so every fetched record is counted as a new submission: the reported
`new_submissions` equals the length of the fetched list (and the store
and last-sync timestamp are untouched).  Consequently the dry-run count
can exceed what a non-dry-run sync of the same data inserts: for a fetch
whose single record already exists in the store, dry-run reports 1 new
submission while the real sync reports (and inserts) 0. -/
theorem C10_dry_run_overcounts :
    (∀ (last_sync : Option ℤ) (now : ℤ) (fetched : List FetchItem) (db : SyncDb),
      ∃ np : ℕ, sync_leetcode_data last_sync now (.ok fetched) db true =
        .ok (np, fetched.length, db, last_sync)) ∧
    sync_leetcode_data none 0 (.ok [c10Item]) c10Db true = .ok (0, 1, c10Db, none) ∧
    sync_leetcode_data none 0 (.ok [c10Item]) c10Db false =
      .ok (0, 0, c10Db, some 0) ∧
    (1 : ℕ) > 0 := by
  refine ⟨?_, ?_, ?_, by omega⟩
  · intro last_sync now fetched db
    unfold sync_leetcode_data
    by_cases hemp : fetched.isEmpty
    · refine ⟨0, ?_⟩
      have hnil : fetched = [] := by
        cases fetched with
        | nil => rfl
        | cons a l => simp [List.isEmpty] at hemp
      subst hnil
      simp
    · refine ⟨(fetched.foldl (sync_step true)
        ⟨init_emap db.problems, db.submissions, [], [], 0, 0, db.next_id⟩).new_problems, ?_⟩
      simp only [if_neg hemp, if_pos, if_true]
      rw [foldl_sync_step_dry fetched]
      norm_num
  · rfl
  · rfl

end LeetAI
